import Mathlib

/-!
Verification development for the KeyBench `TextRankRanker` module
(`src/rankers.py`).  Python strings are modelled as lists of characters,
Python floats carrying scores, similarities and occurrence counts as
rationals, and Python exceptions (KeyError, IndexError, a raised
similarity failure) as `Option`/`none`.
-/

/-- A Python string, modelled as its sequence of characters. -/
abbrev Str := List Char

/-! ### String primitives (Python builtins used by the source) -/

/-- Word-splitting worker: `cur` holds the (reversed) word being read. -/
def splitWsAux : Str → Str → List Str
  | [], cur => if cur = [] then [] else [cur.reverse]
  | c :: r, cur =>
    if c.isWhitespace then
      (if cur = [] then [] else [cur.reverse]) ++ splitWsAux r []
    else splitWsAux r (c :: cur)

/-- Python `str.split()`: the whitespace-separated words of `s`, empty words
discarded. -/
def splitWs (s : Str) : List Str := splitWsAux s []

/-- The accumulator loop the source uses everywhere to join words: append
each word, preceded by a single space whenever the accumulator is already
non-empty. -/
def joinWords (ws : List Str) : Str :=
  ws.foldl (fun acc w => if acc = [] then acc ++ w else acc ++ (" ".data) ++ w) []

/-- Python `s.find(pat)`: index of the first occurrence of `pat` as a
substring of `s`, `none` standing for the -1 "not found" result. -/
def strFind (s pat : Str) : Option ℕ :=
  match s with
  | [] => if pat.isPrefixOf ([] : Str) then some 0 else none
  | c :: r =>
    if pat.isPrefixOf (c :: r) then some 0
    else (strFind r pat).map (fun i => i + 1)

/-- Index of the last occurrence of `pat` as a substring of `s`
(helper for Python `s.rsplit(pat, 1)`). -/
def lastOcc (s pat : Str) : Option ℕ :=
  match s with
  | [] => if pat.isPrefixOf ([] : Str) then some 0 else none
  | c :: r =>
    match lastOcc r pat with
    | some i => some (i + 1)
    | none => if pat.isPrefixOf (c :: r) then some 0 else none

/-- Python `wt.rsplit(sep, 1)[0]`: everything before the last occurrence of
`sep`, or `wt` itself when `sep` does not occur. -/
def rsplitHead (wt sep : Str) : Str :=
  match lastOcc wt sep with
  | some i => wt.take i
  | none => wt

/-- Python `len(t.split())`: the number of whitespace-separated words. -/
def wordCount (t : Str) : ℕ := (splitWs t).length

/-! ### Tag stripping and stemming (source lines 13-36 and the inlined
untagging loops at lines 195-205 and 256-262) -/

/-- The untagging loop the source inlines twice: split on whitespace, strip
each token after the last tag separator, rejoin with single spaces. -/
def untagText (sep : Str) (s : Str) : Str :=
  joinWords ((splitWs s).map (fun wt => rsplitHead wt sep))

/-- Source `pos_tagged_term_stemming`: the stemmed, untagged form of a POS
tagged candidate. -/
def pos_tagged_term_stemming (pos_tagged_candidate : Str) (tag_separator : Str)
    (stemmer : Str → Str) : Str :=
  joinWords ((splitWs pos_tagged_candidate).map
    (fun wt => stemmer (rsplitHead wt tag_separator)))

/-! ### Cluster centroid (source lines 39-75) -/

/-- Modelled from the spec: the word-overlap similarity used by
`cluster_centroid`.  The function `simple_word_overlap_similarity` is not
part of the source file (it is an external import); the spec describes it as
"a word-overlap similarity function over stemmed word sets, where a failed
similarity computation (e.g., degenerate empty phrase) contributes 0 rather
than aborting".  It is modelled as the overlap coefficient of the two word
sets, failing (`none`, i.e. raising) on a degenerate phrase with an empty
word set. -/
def simple_word_overlap_similarity (s1 s2 : Str) : Option ℚ :=
  let w1 := (splitWs s1).dedup
  let w2 := (splitWs s2).dedup
  if w1.length = 0 ∨ w2.length = 0 then none
  else some (((w1.filter (fun w => w ∈ w2)).length : ℚ) / (min w1.length w2.length : ℚ))

/-- Source `cluster_centroid`, parameterised by the external similarity
function `sim` (a `none` result models a raised exception, which the
source's bare `except` turns into a contribution of `0.0`).  The scan keeps
the first member whose average similarity strictly exceeds the running
maximum, which starts at `-1.0`. -/
def cluster_centroid (sim : Str → Str → Option ℚ) (cluster : List Str)
    (tag_separator : Str) (stemmer : Str → Str) : Option Str :=
  (cluster.foldl
    (fun st term1 =>
      let stem1 := pos_tagged_term_stemming term1 tag_separator stemmer
      let similarity :=
        (cluster.foldl
          (fun s term2 =>
            let stem2 := pos_tagged_term_stemming term2 tag_separator stemmer
            s + ((sim stem1 stem2).getD 0)) 0) / (cluster.length : ℚ)
      if st.2 < similarity then (some term1, similarity) else st)
    ((none : Option Str), (-1 : ℚ))).1

/-- The average similarity of `term1` against the whole cluster, self
included, divided by the cluster size — the quantity the scan in
`cluster_centroid` computes for each member. -/
def avgSim (sim : Str → Str → Option ℚ) (tag_separator : Str) (stemmer : Str → Str)
    (cluster : List Str) (term1 : Str) : ℚ :=
  (cluster.foldl
    (fun s term2 =>
      s + ((sim (pos_tagged_term_stemming term1 tag_separator stemmer)
              (pos_tagged_term_stemming term2 tag_separator stemmer)).getD 0)) 0)
  / (cluster.length : ℚ)

/-! ### Document position / frequency analysis (source lines 230-275) -/

/-- Adding `1.0` to a rational, stated in a kernel-computable form (the
library's `Rat.add` is irreducible); `ratSucc_eq` proves it is `q + 1`. -/
def ratSucc (q : ℚ) : ℚ := mkRat (q.num + q.den) q.den

theorem ratSucc_eq (q : ℚ) : ratSucc q = q + 1 := by
  rw [ratSucc, Rat.mkRat_eq_div]
  push_cast
  rw [add_div, Rat.num_div_den, div_self (by exact_mod_cast q.den_nz : ((q.den : ℚ) ≠ 0))]

/-- Pointwise update of a functional map, modelling `d[k] = v` on a Python
dict. -/
def updateMap {α : Type} (m : Str → Option α) (k : Str) (v : α) : Str → Option α :=
  fun s => if s = k then some v else m s

/-- The mutable state of the position/frequency scan in `cluster_ordering`. -/
structure AnalyzerState where
  sentence_length_accumulator : ℕ
  first_positions : Str → Option ℕ
  frequency : Str → Option ℚ

/-- The body of the inner `for term in cluster` loop of `cluster_ordering`:
a substring search of `term` in the untagged sentence; on success the first
position is recorded if absent (`accumulator + (pos + 1)`) and the frequency
entry (initialised to `0.0` if absent) is incremented by `1.0`. -/
def analyzeTerm (st : AnalyzerState) (untagged_sentence : Str) (term : Str) :
    AnalyzerState :=
  match strFind untagged_sentence term with
  | none => st
  | some pos =>
    let fp :=
      match st.first_positions term with
      | some _ => st.first_positions
      | none => updateMap st.first_positions term
          (st.sentence_length_accumulator + (pos + 1))
    let fr0 :=
      match st.frequency term with
      | some _ => st.frequency
      | none => updateMap st.frequency term 0
    let fr := updateMap fr0 term (ratSucc ((fr0 term).getD 0))
    { st with first_positions := fp, frequency := fr }

/-- The body of the `for sentence in text` loop of `cluster_ordering`:
untag the sentence, scan every cluster term against it, then add the
untagged sentence's length to the accumulator regardless of matches. -/
def analyzeSentence (sep : Str) (cluster : List Str) (st : AnalyzerState)
    (sentence : Str) : AnalyzerState :=
  let untagged_sentence := untagText sep sentence
  let st1 := cluster.foldl (fun s term => analyzeTerm s untagged_sentence term) st
  { st1 with sentence_length_accumulator :=
      st1.sentence_length_accumulator + untagged_sentence.length }

/-- The whole position/frequency scan of `cluster_ordering`, starting from
an empty accumulator and empty maps. -/
def analyze (sep : Str) (text : List Str) (cluster : List Str) : AnalyzerState :=
  text.foldl (analyzeSentence sep cluster) ⟨0, fun _ => none, fun _ => none⟩

/-! ### Python sorting -/

/-- Comparison of decorated elements by their key component. -/
def sndRel {α κ : Type} (le : κ → κ → Prop) : (α × κ) → (α × κ) → Prop :=
  fun p q => le p.2 q.2

instance {α κ : Type} (le : κ → κ → Prop) [DecidableRel le] :
    DecidableRel (@sndRel α κ le) :=
  fun p q => inferInstanceAs (Decidable (le p.2 q.2))

/-- Python's lexicographic comparison of two-element tuples. -/
def lexLe {κ1 κ2 : Type} [LinearOrder κ1] [LinearOrder κ2] (p q : κ1 × κ2) : Prop :=
  p.1 < q.1 ∨ (p.1 = q.1 ∧ p.2 ≤ q.2)

instance {κ1 κ2 : Type} [LinearOrder κ1] [LinearOrder κ2] :
    DecidableRel (@lexLe κ1 κ2 _ _) :=
  fun p q => decidable_of_iff (p.1 < q.1 ∨ (p.1 = q.1 ∧ p.2 ≤ q.2)) Iff.rfl

theorem lexLe_total {κ1 κ2 : Type} [LinearOrder κ1] [LinearOrder κ2]
    (p q : κ1 × κ2) : lexLe p q ∨ lexLe q p := by
  rcases lt_trichotomy p.1 q.1 with h | h | h
  · exact Or.inl (Or.inl h)
  · rcases le_total p.2 q.2 with h2 | h2
    · exact Or.inl (Or.inr ⟨h, h2⟩)
    · exact Or.inr (Or.inr ⟨h.symm, h2⟩)
  · exact Or.inr (Or.inl h)

theorem lexLe_trans {κ1 κ2 : Type} [LinearOrder κ1] [LinearOrder κ2]
    {p q r : κ1 × κ2} (h1 : lexLe p q) (h2 : lexLe q r) : lexLe p r := by
  rcases h1 with h1 | ⟨h1, h1b⟩
  · rcases h2 with h2 | ⟨h2, _⟩
    · exact Or.inl (lt_trans h1 h2)
    · exact Or.inl (h2 ▸ h1)
  · rcases h2 with h2 | ⟨h2, h2b⟩
    · exact Or.inl (h1 ▸ h2)
    · exact Or.inr ⟨h1.trans h2, h1b.trans h2b⟩

/-- Descending comparison on scores (Python `reverse=True` on `row[1]`). -/
def qGe (a b : ℚ) : Prop := b ≤ a

instance : DecidableRel qGe := fun a b => inferInstanceAs (Decidable (b ≤ a))

/-- Run a fallible function over a list, failing as a whole as soon as one
element fails (the behaviour of a Python loop in which an exception
escapes). -/
def mapOpt {α β : Type} (f : α → Option β) : List α → Option (List β)
  | [] => some []
  | a :: l =>
    match f a, mapOpt f l with
    | some b, some bs => some (b :: bs)
    | _, _ => none

/-- Python `sorted(l, key = k)` with a key that can raise (a dict lookup):
decorate each element with its key, stable-sort by the key, undecorate.  A
failed key lookup aborts the whole sort, as the propagated exception
would. -/
def pySortedBy {α κ : Type} (le : κ → κ → Prop) [DecidableRel le]
    (key : α → Option κ) (l : List α) : Option (List α) :=
  match mapOpt (fun a => (key a).map (fun k => (a, k))) l with
  | none => none
  | some pairs => some ((List.insertionSort (sndRel le) pairs).map Prod.fst)

/-! ### The ranker (source lines 84-286) -/

/- The criteria values of the source's `ORDERING_CRITERIA` class (plain
integers in Python; the dispatch in `cluster_ordering` tests `POSITION`,
then `FREQUENCY`, and otherwise falls through to the centroid branch). -/
namespace ORDERING_CRITERIA

def POSITION : ℕ := 0

def FREQUENCY : ℕ := 1

def CENTROID : ℕ := 2

end ORDERING_CRITERIA

/-- The slice of the strategy object that `ordering` / `cluster_ordering`
consume: whether it is a `TopicRankStrategy` (the cluster-aware case), the
values of its `token_ids()` dict, its tag separator, stemmer and context
(the POS tagged sentences of the document). -/
structure TextRankStrategy where
  isTopicRankStrategy : Bool
  token_ids : List (List Str)
  tag_separator : Str
  stemmer : Str → Str
  context : List Str

/-- The state of a `TextRankRanker` that its `ordering` operation reads:
the strategy held by its TextRank engine and the ordering criteria fixed at
construction. -/
structure TextRankRanker where
  strategy : TextRankStrategy
  ordering_criteria : ℕ

/-- Python `weights[kp]` on the weight dict (keys unique), `none` modelling
the KeyError on a missing key. -/
def dictLookup {β : Type} (weights : List (Str × β)) (k : Str) : Option β :=
  match weights with
  | [] => none
  | p :: rest => if p.1 = k then some p.2 else dictLookup rest k

/-- Source `TextRankRanker.cluster_ordering` (lines 219-286): fake-tag the
cluster, select its centroid, run the position/frequency scan over the
strategy's context, then sort the cluster ascending by the criterion's
two-part key.  A `none` result models the KeyError raised by a missing
`first_positions` / `frequency` entry. -/
def cluster_ordering (r : TextRankRanker) (cluster : List Str) : Option (List Str) :=
  let sep := r.strategy.tag_separator
  let fake_pos_tagged_cluster :=
    cluster.map (fun term =>
      joinWords ((splitWs term).map (fun w => w ++ sep ++ ("fk".data))))
  let tagged_centroid :=
    cluster_centroid simple_word_overlap_similarity fake_pos_tagged_cluster sep
      r.strategy.stemmer
  let centroid :=
    (List.zip fake_pos_tagged_cluster cluster).foldl
      (fun c p => if some p.1 = tagged_centroid then p.2 else c) ([] : Str)
  let A := analyze sep r.strategy.context cluster
  if r.ordering_criteria = ORDERING_CRITERIA.POSITION then
    pySortedBy lexLe
      (fun t => (A.first_positions t).map (fun p => (p, -(wordCount t : ℤ)))) cluster
  else if r.ordering_criteria = ORDERING_CRITERIA.FREQUENCY then
    pySortedBy lexLe
      (fun t => (A.frequency t).map (fun f => (f, -(wordCount t : ℤ)))) cluster
  else
    pySortedBy lexLe
      (fun t => some ((if t = centroid then (0 : ℕ) else 1), -(wordCount t : ℤ)))
      cluster

/-- Source `TextRankRanker.ordering` (lines 168-217).  Non-cluster-aware
strategies get a flat stable descending sort of the weight dict's entries.
A `TopicRankStrategy` replaces the `clusters` argument by the strategy's
own `token_ids()` values, untags each cluster, reorders it through
`cluster_ordering`, keeps the head phrase of each cluster with its weight,
and sorts those representatives descending by score.  A `none` result
models a propagated IndexError (empty cluster) or KeyError (missing weight
or missing position/frequency entry). -/
def ordering (r : TextRankRanker) (weights : List (Str × ℚ))
    (clusters : List (List Str)) : Option (List (Str × ℚ)) :=
  if r.strategy.isTopicRankStrategy = false then
    some (List.insertionSort (sndRel qGe) weights)
  else
    match mapOpt
      (fun cluster =>
        let untagged_cluster :=
          cluster.map (fun term => untagText r.strategy.tag_separator term)
        match cluster_ordering r untagged_cluster with
        | none => none
        | some reordered =>
          match reordered with
          | [] => none
          | kp :: _ =>
            match dictLookup weights kp with
            | none => none
            | some score => some (kp, score))
      r.strategy.token_ids with
    | none => none
    | some ordered_terms => some (List.insertionSort (sndRel qGe) ordered_terms)

/-! ### Specification-side descriptions used in the theorem statements -/

/-- The first-occurrence offset the analyzer is specified to record for
`term`: scanning the untagged sentences in order with a running length
accumulator, the first sentence containing `term` yields
`accumulator + (match_index + 1)`. -/
def firstOffset (term : Str) (acc : ℕ) : List Str → Option ℕ
  | [] => none
  | u :: rest =>
    match strFind u term with
    | some pos => some (acc + (pos + 1))
    | none => firstOffset term (acc + u.length) rest

/-! ### Lemmas about `mapOpt` and `pySortedBy` -/

theorem mapOpt_length {α β : Type} {f : α → Option β} :
    ∀ {l : List α} {ys : List β}, mapOpt f l = some ys → ys.length = l.length := by
  intro l
  induction l with
  | nil =>
    intro ys h
    simp only [mapOpt, Option.some.injEq] at h
    subst h
    rfl
  | cons a l ih =>
    intro ys h
    rcases hfa : f a with _ | b <;> rcases hml : mapOpt f l with _ | bs <;>
      simp [mapOpt, hfa, hml] at h
    subst h
    simp [ih hml]

theorem mapOpt_get {α β : Type} {f : α → Option β} :
    ∀ {l : List α} {ys : List β}, mapOpt f l = some ys →
      ∀ i (h1 : i < l.length) (h2 : i < ys.length),
        f (l.get ⟨i, h1⟩) = some (ys.get ⟨i, h2⟩) := by
  intro l
  induction l with
  | nil =>
    intro ys h i h1 h2
    exact absurd h1 (by simp)
  | cons a l ih =>
    intro ys h i h1 h2
    rcases hfa : f a with _ | b <;> rcases hml : mapOpt f l with _ | bs <;>
      simp [mapOpt, hfa, hml] at h
    subst h
    cases i with
    | zero => simpa using hfa
    | succ j =>
      exact ih hml j (Nat.lt_of_succ_lt_succ h1) (Nat.lt_of_succ_lt_succ h2)

theorem mapOpt_none_of_mem {α β : Type} {f : α → Option β} {a : α} :
    ∀ {l : List α}, a ∈ l → f a = none → mapOpt f l = none := by
  intro l
  induction l with
  | nil => intro ha; exact absurd ha (by simp)
  | cons b l ih =>
    intro ha hfa
    rcases List.mem_cons.mp ha with h | h
    · subst h
      simp [mapOpt, hfa]
    · rcases hfb : f b with _ | v <;> simp [mapOpt, hfb, ih h hfa]

theorem mapOpt_isSome_of_mem {α β : Type} {f : α → Option β} {l : List α}
    {ys : List β} {a : α} (h : mapOpt f l = some ys) (ha : a ∈ l) :
    (f a).isSome := by
  rcases hfa : f a with _ | v
  · rw [mapOpt_none_of_mem ha hfa] at h
    cases h
  · rfl

theorem mapOpt_some_of_all {α β : Type} {f : α → Option β} :
    ∀ {l : List α}, (∀ a ∈ l, (f a).isSome) → ∃ ys, mapOpt f l = some ys := by
  intro l
  induction l with
  | nil => intro _; exact ⟨[], rfl⟩
  | cons a l ih =>
    intro h
    obtain ⟨b, hb⟩ := Option.isSome_iff_exists.mp (h a (by simp))
    obtain ⟨bs, hbs⟩ := ih (fun x hx => h x (by simp [hx]))
    exact ⟨b :: bs, by simp [mapOpt, hb, hbs]⟩

theorem mapOpt_mem {α β : Type} {f : α → Option β} :
    ∀ {l : List α} {ys : List β}, mapOpt f l = some ys →
      ∀ {b : β}, b ∈ ys → ∃ a ∈ l, f a = some b := by
  intro l
  induction l with
  | nil =>
    intro ys h b hb
    simp only [mapOpt, Option.some.injEq] at h
    subst h
    exact absurd hb (by simp)
  | cons a l ih =>
    intro ys h b hb
    rcases hfa : f a with _ | v <;> rcases hml : mapOpt f l with _ | bs <;>
      simp [mapOpt, hfa, hml] at h
    subst h
    rcases List.mem_cons.mp hb with h | h
    · exact ⟨a, by simp, h ▸ hfa⟩
    · obtain ⟨x, hx, hfx⟩ := ih hml h
      exact ⟨x, by simp [hx], hfx⟩

theorem mapOpt_decorate_fst {α κ : Type} {key : α → Option κ} :
    ∀ {l : List α} {pairs : List (α × κ)},
      mapOpt (fun a => (key a).map (fun k => (a, k))) l = some pairs →
      pairs.map Prod.fst = l := by
  intro l
  induction l with
  | nil =>
    intro pairs h
    simp only [mapOpt, Option.some.injEq] at h
    subst h
    rfl
  | cons a l ih =>
    intro pairs h
    rcases hka : key a with _ | k <;>
      rcases hml : mapOpt (fun a => (key a).map (fun k => (a, k))) l with _ | rest <;>
      simp [mapOpt, hka, hml] at h
    subst h
    simp [ih hml]

theorem pySortedBy_perm {α κ : Type} {le : κ → κ → Prop} [DecidableRel le]
    {key : α → Option κ} {l out : List α}
    (h : pySortedBy le key l = some out) : out.Perm l := by
  rw [pySortedBy] at h
  split at h
  · cases h
  · rename_i pairs heq
    cases h
    have h1 : List.Perm ((List.insertionSort (sndRel le) pairs).map Prod.fst)
        (pairs.map Prod.fst) := (List.perm_insertionSort _ _).map _
    rw [mapOpt_decorate_fst heq] at h1
    exact h1

theorem pySortedBy_none_of_mem {α κ : Type} {le : κ → κ → Prop} [DecidableRel le]
    {key : α → Option κ} {l : List α} {a : α}
    (ha : a ∈ l) (hk : key a = none) : pySortedBy le key l = none := by
  rw [pySortedBy]
  rw [mapOpt_none_of_mem ha (by simp [hk])]

theorem pySortedBy_some_of_all {α κ : Type} {le : κ → κ → Prop} [DecidableRel le]
    {key : α → Option κ} {l : List α}
    (h : ∀ a ∈ l, (key a).isSome) : ∃ out, pySortedBy le key l = some out := by
  obtain ⟨ys, hys⟩ :=
    @mapOpt_some_of_all α (α × κ) (fun a => (key a).map (fun k => (a, k))) l
      (by
        intro a ha
        obtain ⟨k, hk⟩ := Option.isSome_iff_exists.mp (h a ha)
        simp [hk])
  exact ⟨_, by rw [pySortedBy, hys]⟩

theorem pySortedBy_isSome_keys {α κ : Type} {le : κ → κ → Prop} [DecidableRel le]
    {key : α → Option κ} {l out : List α}
    (h : pySortedBy le key l = some out) : ∀ a ∈ out, (key a).isSome := by
  intro a ha
  have ha' : a ∈ l := (pySortedBy_perm h).mem_iff.mp ha
  rw [pySortedBy] at h
  split at h
  · cases h
  · rename_i pairs heq
    have hx := mapOpt_isSome_of_mem heq ha'
    rcases hka : key a with _ | k
    · rw [hka] at hx
      simp at hx
    · rfl

theorem pySortedBy_sorted {α κ : Type} {le : κ → κ → Prop} [DecidableRel le]
    {key : α → Option κ} {l out : List α}
    (htot : ∀ x y, le x y ∨ le y x)
    (htr : ∀ x y z, le x y → le y z → le x z)
    (h : pySortedBy le key l = some out) :
    out.Pairwise (fun a b => ∃ ka kb, key a = some ka ∧ key b = some kb ∧ le ka kb) := by
  rw [pySortedBy] at h
  split at h
  · cases h
  · rename_i pairs heq
    cases h
    haveI : IsTotal (α × κ) (sndRel le) := ⟨fun p q => htot p.2 q.2⟩
    haveI : IsTrans (α × κ) (sndRel le) := ⟨fun p q r h1 h2 => htr _ _ _ h1 h2⟩
    have hs := List.sorted_insertionSort (sndRel le) pairs
    have hkey : ∀ p ∈ List.insertionSort (sndRel le) pairs, key p.1 = some p.2 := by
      intro p hp
      obtain ⟨a, _, hfa⟩ := mapOpt_mem heq ((List.mem_insertionSort _).mp hp)
      rcases hka : key a with _ | k <;> rw [hka] at hfa
      · cases hfa
      · simp only [Option.map_some', Option.some.injEq] at hfa
        subst hfa
        simpa using hka
    rw [List.pairwise_map]
    exact List.Pairwise.imp_of_mem
      (fun {p q} hp hq hle => ⟨p.2, q.2, hkey p hp, hkey q hq, hle⟩) hs

/-! ### The descending final sort -/

theorem insertionSort_scores_chain (ws : List (Str × ℚ)) :
    (List.insertionSort (sndRel qGe) ws).Chain' (fun p q => q.2 ≤ p.2) := by
  haveI : IsTotal (Str × ℚ) (sndRel qGe) := ⟨fun p q => le_total q.2 p.2⟩
  haveI : IsTrans (Str × ℚ) (sndRel qGe) := ⟨fun p q r h1 h2 => le_trans h2 h1⟩
  exact List.Pairwise.chain' (List.sorted_insertionSort (sndRel qGe) ws)

/-- Claim C1: for every weight map and cluster list, the sequence returned
by the ranker's `ordering` operation (whenever it returns at all) has
non-increasing scores: every adjacent pair satisfies
`score[i] >= score[i+1]`, in both the cluster-aware and the
non-cluster-aware branch. -/
theorem claim_C1 (r : TextRankRanker) (weights : List (Str × ℚ))
    (clusters : List (List Str)) (out : List (Str × ℚ))
    (h : ordering r weights clusters = some out) :
    out.Chain' (fun p q => q.2 ≤ p.2) := by
  rw [ordering] at h
  split at h
  · cases h
    exact insertionSort_scores_chain weights
  · split at h
    · cases h
    · cases h
      exact insertionSort_scores_chain _

theorem claim_C1_witness :
    ordering ⟨⟨false, [], ("/".data), id, []⟩, 0⟩
        [((("a".data) : Str), (1 : ℚ)), (("b".data), 2)] [] =
      some [(("b".data), 2), (("a".data), 1)] ∧
    ([((("b".data) : Str), (2 : ℚ)), (("a".data), 1)]).Chain' (fun p q => q.2 ≤ p.2) :=
  ⟨by decide,
    claim_C1 ⟨⟨false, [], ("/".data), id, []⟩, 0⟩
      [((("a".data) : Str), (1 : ℚ)), (("b".data), 2)] []
      [(("b".data), 2), (("a".data), 1)] (by decide)⟩

/-- Claim C9: when the strategy is cluster-aware (a `TopicRankStrategy`),
the result of `ordering` does not depend on the `clusters` argument: any
two values of that argument yield the identical output, because cluster
membership is re-fetched from the strategy's `token_ids()`. -/
theorem claim_C9 (r : TextRankRanker) (weights : List (Str × ℚ))
    (clusters1 clusters2 : List (List Str))
    (h : r.strategy.isTopicRankStrategy = true) :
    ordering r weights clusters1 = ordering r weights clusters2 := by
  simp only [ordering, h]

theorem claim_C9_witness :
    ordering ⟨⟨true, [[("a/N".data)]], ("/".data), id, [("a/N".data)]⟩, 0⟩
        [((("a".data) : Str), (1 : ℚ))] [[("x".data)], [("y".data)]] =
      ordering ⟨⟨true, [[("a/N".data)]], ("/".data), id, [("a/N".data)]⟩, 0⟩
        [((("a".data) : Str), (1 : ℚ))] [] :=
  claim_C9 ⟨⟨true, [[("a/N".data)]], ("/".data), id, [("a/N".data)]⟩, 0⟩
    [((("a".data) : Str), (1 : ℚ))] [[("x".data)], [("y".data)]] [] rfl

/-! ### Lemmas about `cluster_ordering` -/

theorem cluster_ordering_perm {r : TextRankRanker} {cluster out : List Str}
    (h : cluster_ordering r cluster = some out) : out.Perm cluster := by
  simp only [cluster_ordering] at h
  split at h
  · exact pySortedBy_perm h
  · split at h
    · exact pySortedBy_perm h
    · exact pySortedBy_perm h

theorem cluster_ordering_some (r : TextRankRanker) (cluster : List Str)
    (hp : r.ordering_criteria = ORDERING_CRITERIA.POSITION →
      ∀ t ∈ cluster,
        ((analyze r.strategy.tag_separator r.strategy.context cluster).first_positions t).isSome)
    (hf : r.ordering_criteria = ORDERING_CRITERIA.FREQUENCY →
      ∀ t ∈ cluster,
        ((analyze r.strategy.tag_separator r.strategy.context cluster).frequency t).isSome) :
    ∃ out, cluster_ordering r cluster = some out := by
  simp only [cluster_ordering]
  split
  · rename_i h1
    apply pySortedBy_some_of_all
    intro t ht
    obtain ⟨p, hp'⟩ := Option.isSome_iff_exists.mp (hp h1 t ht)
    simp [hp']
  · split
    · rename_i h2
      apply pySortedBy_some_of_all
      intro t ht
      obtain ⟨f, hf'⟩ := Option.isSome_iff_exists.mp (hf h2 t ht)
      simp [hf']
    · apply pySortedBy_some_of_all
      intro t _
      rfl

/-- Claim C10: for every non-empty input cluster whose members all have
recorded position/frequency entries (when the active criterion needs
them), `cluster_ordering` succeeds and returns a permutation of its input
(same length, same multiset of phrases), under every ordering criterion. -/
theorem claim_C10 (r : TextRankRanker) (cluster : List Str)
    (hne : cluster ≠ [])
    (hp : r.ordering_criteria = ORDERING_CRITERIA.POSITION →
      ∀ t ∈ cluster,
        ((analyze r.strategy.tag_separator r.strategy.context cluster).first_positions t).isSome)
    (hf : r.ordering_criteria = ORDERING_CRITERIA.FREQUENCY →
      ∀ t ∈ cluster,
        ((analyze r.strategy.tag_separator r.strategy.context cluster).frequency t).isSome) :
    ∃ out, cluster_ordering r cluster = some out ∧ out.Perm cluster := by
  obtain ⟨out, hout⟩ := cluster_ordering_some r cluster hp hf
  exact ⟨out, hout, cluster_ordering_perm hout⟩

theorem claim_C10_witness :
    ∃ out,
      cluster_ordering
          ⟨⟨true, [], ("/".data), id, [("b/N a/N".data)]⟩, ORDERING_CRITERIA.POSITION⟩
          [("a".data), ("b".data)] = some out ∧
      out.Perm [("a".data), ("b".data)] :=
  claim_C10
    ⟨⟨true, [], ("/".data), id, [("b/N a/N".data)]⟩, ORDERING_CRITERIA.POSITION⟩
    [("a".data), ("b".data)] (by decide) (by decide) (by decide)

/-- Claim C7: a cluster member with no recorded first-occurrence offset
(POSITION criterion) or no recorded occurrence count (FREQUENCY criterion)
makes `cluster_ordering` surface the lookup failure — the whole call
returns `none` (the KeyError) instead of substituting any default. -/
theorem claim_C7 (r : TextRankRanker) (cluster : List Str) (t : Str)
    (ht : t ∈ cluster) :
    (r.ordering_criteria = ORDERING_CRITERIA.POSITION →
      (analyze r.strategy.tag_separator r.strategy.context cluster).first_positions t = none →
      cluster_ordering r cluster = none) ∧
    (r.ordering_criteria = ORDERING_CRITERIA.FREQUENCY →
      (analyze r.strategy.tag_separator r.strategy.context cluster).frequency t = none →
      cluster_ordering r cluster = none) := by
  constructor
  · intro hc hnone
    simp only [cluster_ordering, hc, if_pos]
    exact pySortedBy_none_of_mem ht (by simp [hnone])
  · intro hc hnone
    simp only [cluster_ordering, hc, ORDERING_CRITERIA.POSITION,
      ORDERING_CRITERIA.FREQUENCY]
    norm_num
    exact pySortedBy_none_of_mem ht (by simp [hnone])

theorem claim_C7_witness :
    cluster_ordering ⟨⟨true, [], ("/".data), id, []⟩, ORDERING_CRITERIA.POSITION⟩
      [("a".data)] = none :=
  (claim_C7 ⟨⟨true, [], ("/".data), id, []⟩, ORDERING_CRITERIA.POSITION⟩
      [("a".data)] ("a".data) (by decide)).1 rfl (by decide)

/-- Claim C2: when clustering is active (the strategy is a
`TopicRankStrategy`), the output of `ordering` has exactly one entry per
cluster of the strategy's `token_ids()` grouping (it is a permutation of a
list with one representative per cluster, in cluster order), and each
representative's phrase is the untagged form of a member of the cluster it
represents. -/
theorem claim_C2 (r : TextRankRanker) (weights : List (Str × ℚ))
    (clusters : List (List Str)) (out : List (Str × ℚ))
    (htopic : r.strategy.isTopicRankStrategy = true)
    (h : ordering r weights clusters = some out) :
    ∃ reps : List (Str × ℚ),
      out.Perm reps ∧
      reps.length = r.strategy.token_ids.length ∧
      ∀ i (h1 : i < reps.length) (h2 : i < r.strategy.token_ids.length),
        (reps.get ⟨i, h1⟩).1 ∈
          (r.strategy.token_ids.get ⟨i, h2⟩).map
            (fun term => untagText r.strategy.tag_separator term) := by
  rw [ordering] at h
  split at h
  · rename_i hcond
    rw [htopic] at hcond
    cases hcond
  · split at h
    · cases h
    · rename_i terms heq
      cases h
      refine ⟨terms, List.perm_insertionSort _ _, mapOpt_length heq, ?_⟩
      intro i h1 h2
      have hf := mapOpt_get heq i h2 h1
      simp only [] at hf
      split at hf
      · cases hf
      · rename_i reordered hco
        split at hf
        · cases hf
        · rename_i kp rest
          split at hf
          · cases hf
          · rename_i score hlk
            injection hf with hf2
            rw [← hf2]
            exact (cluster_ordering_perm hco).mem_iff.mp (by simp)

theorem claim_C2_witness :
    ∃ reps : List (Str × ℚ),
      ([((("a".data) : Str), (1 : ℚ))]).Perm reps ∧
      reps.length = ([[("a/N".data)]] : List (List Str)).length ∧
      ∀ i (h1 : i < reps.length) (h2 : i < ([[("a/N".data)]] : List (List Str)).length),
        (reps.get ⟨i, h1⟩).1 ∈
          (([[("a/N".data)]] : List (List Str)).get ⟨i, h2⟩).map
            (fun term => untagText ("/".data) term) :=
  claim_C2 ⟨⟨true, [[("a/N".data)]], ("/".data), id, [("a/N".data)]⟩, 0⟩
    [((("a".data) : Str), (1 : ℚ))] [] [((("a".data) : Str), (1 : ℚ))]
    rfl (by decide)

/-- Claim C4: under the POSITION criterion, `cluster_ordering` sorts the
cluster ascending by the two-part key
`(first_occurrence_offset, -word_count)`: along the output, each adjacent
pair's recorded offsets/negated word counts are lexicographically
non-decreasing — earliest first occurrence first and, at equal offsets, the
phrase with more words first; and every output phrase has a recorded
offset. -/
theorem claim_C4 (r : TextRankRanker) (cluster out : List Str)
    (hc : r.ordering_criteria = ORDERING_CRITERIA.POSITION)
    (h : cluster_ordering r cluster = some out) :
    (∀ t ∈ out,
      ((analyze r.strategy.tag_separator r.strategy.context cluster).first_positions t).isSome) ∧
    out.Chain' (fun t u => ∃ pt pu,
      (analyze r.strategy.tag_separator r.strategy.context cluster).first_positions t = some pt ∧
      (analyze r.strategy.tag_separator r.strategy.context cluster).first_positions u = some pu ∧
      lexLe (pt, -(wordCount t : ℤ)) (pu, -(wordCount u : ℤ))) := by
  simp only [cluster_ordering] at h
  split at h
  case isFalse hcond => exact absurd hc hcond
  case isTrue hcond =>
  constructor
  · intro t ht
    have hk := pySortedBy_isSome_keys h t ht
    rcases hfa : (analyze r.strategy.tag_separator r.strategy.context cluster).first_positions t
      with _ | p
    · rw [hfa] at hk
      simp at hk
    · rfl
  · have hs := pySortedBy_sorted lexLe_total (fun x y z h1 h2 => lexLe_trans h1 h2) h
    apply List.Pairwise.chain'
    apply hs.imp
    intro a b hab
    obtain ⟨ka, kb, hka, hkb, hle⟩ := hab
    rcases hfa : (analyze r.strategy.tag_separator r.strategy.context cluster).first_positions a
      with _ | pa <;> rw [hfa] at hka
    · cases hka
    · rcases hfb : (analyze r.strategy.tag_separator r.strategy.context cluster).first_positions b
        with _ | pb <;> rw [hfb] at hkb
      · cases hkb
      · simp only [Option.map_some', Option.some.injEq] at hka hkb
        subst hka
        subst hkb
        exact ⟨pa, pb, rfl, rfl, hle⟩

theorem claim_C4_witness :
    (∀ t ∈ [("b".data), ("a".data)],
      ((analyze ("/".data) [("b/N a/N".data)] [("a".data), ("b".data)]).first_positions t).isSome) ∧
    List.Chain' (fun t u => ∃ pt pu,
      (analyze ("/".data) [("b/N a/N".data)] [("a".data), ("b".data)]).first_positions t = some pt ∧
      (analyze ("/".data) [("b/N a/N".data)] [("a".data), ("b".data)]).first_positions u = some pu ∧
      lexLe (pt, -(wordCount t : ℤ)) (pu, -(wordCount u : ℤ)))
      [("b".data), ("a".data)] :=
  claim_C4 ⟨⟨true, [], ("/".data), id, [("b/N a/N".data)]⟩, ORDERING_CRITERIA.POSITION⟩
    [("a".data), ("b".data)] [("b".data), ("a".data)] rfl (by decide)

/-- Claim C3: under the FREQUENCY criterion, `cluster_ordering` sorts the
cluster ascending by `(occurrence_count, -word_count)` (every output phrase
has a recorded count and adjacent pairs are lexicographically
non-decreasing in that key, so more words sort first among equal counts);
in particular, for the cluster `{"a", "b"}` in a document whose analyzer
counts are `a = 3` and `b = 1`, the returned order places `"b"` first even
though it is less frequent. -/
theorem claim_C3 :
    (∀ (r : TextRankRanker) (cluster out : List Str),
      r.ordering_criteria = ORDERING_CRITERIA.FREQUENCY →
      cluster_ordering r cluster = some out →
      (∀ t ∈ out,
        ((analyze r.strategy.tag_separator r.strategy.context cluster).frequency t).isSome) ∧
      out.Chain' (fun t u => ∃ ft fu,
        (analyze r.strategy.tag_separator r.strategy.context cluster).frequency t = some ft ∧
        (analyze r.strategy.tag_separator r.strategy.context cluster).frequency u = some fu ∧
        lexLe (ft, -(wordCount t : ℤ)) (fu, -(wordCount u : ℤ)))) ∧
    ((analyze ("/".data) [("a/N".data), ("a/N".data), ("a/N b/N".data)]
        [("a".data), ("b".data)]).frequency ("a".data) = some 3 ∧
      (analyze ("/".data) [("a/N".data), ("a/N".data), ("a/N b/N".data)]
        [("a".data), ("b".data)]).frequency ("b".data) = some 1 ∧
      cluster_ordering
        ⟨⟨true, [], ("/".data), id,
            [("a/N".data), ("a/N".data), ("a/N b/N".data)]⟩,
          ORDERING_CRITERIA.FREQUENCY⟩
        [("a".data), ("b".data)] = some [("b".data), ("a".data)]) := by
  constructor
  · intro r cluster out hc h
    simp only [cluster_ordering, hc] at h
    norm_num [ORDERING_CRITERIA.FREQUENCY, ORDERING_CRITERIA.POSITION] at h
    constructor
    · intro t ht
      have hk := pySortedBy_isSome_keys h t ht
      rcases hfa : (analyze r.strategy.tag_separator r.strategy.context cluster).frequency t
        with _ | f
      · rw [hfa] at hk
        simp at hk
      · rfl
    · have hs := pySortedBy_sorted lexLe_total (fun x y z h1 h2 => lexLe_trans h1 h2) h
      apply List.Pairwise.chain'
      apply hs.imp
      intro a b hab
      obtain ⟨ka, kb, hka, hkb, hle⟩ := hab
      rcases hfa : (analyze r.strategy.tag_separator r.strategy.context cluster).frequency a
        with _ | fa <;> rw [hfa] at hka
      · cases hka
      · rcases hfb : (analyze r.strategy.tag_separator r.strategy.context cluster).frequency b
          with _ | fb <;> rw [hfb] at hkb
        · cases hkb
        · simp only [Option.map_some', Option.some.injEq] at hka hkb
          subst hka
          subst hkb
          exact ⟨fa, fb, rfl, rfl, hle⟩
  · refine ⟨by decide, by decide, by decide⟩

theorem claim_C3_witness :
    (∀ t ∈ [("b".data), ("a".data)],
      ((analyze ("/".data) [("a/N".data), ("a/N".data), ("a/N b/N".data)]
          [("a".data), ("b".data)]).frequency t).isSome) ∧
    List.Chain' (fun t u => ∃ ft fu,
      (analyze ("/".data) [("a/N".data), ("a/N".data), ("a/N b/N".data)]
          [("a".data), ("b".data)]).frequency t = some ft ∧
      (analyze ("/".data) [("a/N".data), ("a/N".data), ("a/N b/N".data)]
          [("a".data), ("b".data)]).frequency u = some fu ∧
      lexLe (ft, -(wordCount t : ℤ)) (fu, -(wordCount u : ℤ)))
      [("b".data), ("a".data)] :=
  claim_C3.1
    ⟨⟨true, [], ("/".data), id,
        [("a/N".data), ("a/N".data), ("a/N b/N".data)]⟩,
      ORDERING_CRITERIA.FREQUENCY⟩
    [("a".data), ("b".data)] [("b".data), ("a".data)] rfl (by decide)

/-! ### Centroid computation -/

/-- Claim C8: a failed pairwise similarity computation (a `none`, i.e. an
exception caught by the source's bare `except`) contributes exactly `0` to
the member's similarity sum and the scan continues: `cluster_centroid`
computes the same (always-defined) result as it would with the similarity
function whose failures are literally replaced by a `0` contribution; no
error propagates out of `cluster_centroid`. -/
theorem claim_C8 (sim : Str → Str → Option ℚ) (cluster : List Str)
    (tag_separator : Str) (stemmer : Str → Str) :
    cluster_centroid sim cluster tag_separator stemmer =
      cluster_centroid (fun a b => some ((sim a b).getD 0)) cluster tag_separator stemmer := by
  unfold cluster_centroid
  simp only [Option.getD_some]

theorem swos_nonneg (a b : Str) (v : ℚ)
    (h : simple_word_overlap_similarity a b = some v) : 0 ≤ v := by
  simp only [simple_word_overlap_similarity] at h
  split at h
  · cases h
  · injection h with h2
    rw [← h2]
    exact div_nonneg (Nat.cast_nonneg _) (le_min (Nat.cast_nonneg _) (Nat.cast_nonneg _))

theorem foldl_add_getD_nonneg {g : Str → Option ℚ}
    (hg : ∀ x v, g x = some v → 0 ≤ v) :
    ∀ (l : List Str) (s : ℚ), 0 ≤ s →
      0 ≤ l.foldl (fun acc x => acc + (g x).getD 0) s := by
  intro l
  induction l with
  | nil => intro s hs; exact hs
  | cons x xs ih =>
    intro s hs
    apply ih
    apply add_nonneg hs
    rcases hgx : g x with _ | v
    · simp
    · simpa using hg x v hgx

theorem avgSim_nonneg {sim : Str → Str → Option ℚ}
    (hnn : ∀ a b v, sim a b = some v → 0 ≤ v)
    (sep : Str) (stemmer : Str → Str) (cluster : List Str) (t : Str) :
    0 ≤ avgSim sim sep stemmer cluster t := by
  unfold avgSim
  apply div_nonneg _ (Nat.cast_nonneg _)
  exact @foldl_add_getD_nonneg
    (fun term2 => sim (pos_tagged_term_stemming t sep stemmer)
      (pos_tagged_term_stemming term2 sep stemmer))
    (fun x v h => hnn _ _ v h) cluster 0 le_rfl

/-- The first-strict-maximum behaviour of the scan in `cluster_centroid`:
folding the update step over a list either leaves the initial state
untouched (every value at most the initial maximum), or ends on the first
index attaining the maximum of the values. -/
theorem centroid_fold_spec (f : Str → ℚ) :
    ∀ (l : List Str) (c0 : Option Str) (b0 : ℚ),
      (l.foldl (fun st t => if st.2 < f t then (some t, f t) else st) (c0, b0) = (c0, b0) ∧
        ∀ j (hj : j < l.length), f (l.get ⟨j, hj⟩) ≤ b0) ∨
      (∃ (i : ℕ) (hi : i < l.length),
        l.foldl (fun st t => if st.2 < f t then (some t, f t) else st) (c0, b0) =
          (some (l.get ⟨i, hi⟩), f (l.get ⟨i, hi⟩)) ∧
        b0 < f (l.get ⟨i, hi⟩) ∧
        (∀ j (hj : j < i), f (l.get ⟨j, Nat.lt_trans hj hi⟩) < f (l.get ⟨i, hi⟩)) ∧
        (∀ j (hj : j < l.length), f (l.get ⟨j, hj⟩) ≤ f (l.get ⟨i, hi⟩))) := by
  intro l
  induction l with
  | nil =>
    intro c0 b0
    exact Or.inl ⟨rfl, fun j hj => absurd hj (by simp)⟩
  | cons x xs ih =>
    intro c0 b0
    rw [List.foldl_cons]
    by_cases hx : b0 < f x
    · have hx2 : ((c0, b0) : Option Str × ℚ).2 < f x := hx
      rw [if_pos hx2]
      rcases ih (some x) (f x) with ⟨heq, hall⟩ | ⟨i, hi, heq, hb, hprev, hall⟩
      · refine Or.inr ⟨0, by simp, heq, hx, fun j hj => absurd hj (by simp), ?_⟩
        intro j hj
        cases j with
        | zero => exact le_rfl
        | succ j => exact hall j (Nat.lt_of_succ_lt_succ hj)
      · refine Or.inr ⟨i + 1, by simpa using hi, heq, lt_trans hx hb, ?_, ?_⟩
        · intro j hj
          cases j with
          | zero => exact hb
          | succ j => exact hprev j (Nat.lt_of_succ_lt_succ hj)
        · intro j hj
          cases j with
          | zero => exact le_of_lt hb
          | succ j => exact hall j (Nat.lt_of_succ_lt_succ hj)
    · have hx2 : ¬((c0, b0) : Option Str × ℚ).2 < f x := hx
      rw [if_neg hx2]
      rcases ih c0 b0 with ⟨heq, hall⟩ | ⟨i, hi, heq, hb, hprev, hall⟩
      · refine Or.inl ⟨heq, ?_⟩
        intro j hj
        cases j with
        | zero => exact not_lt.mp hx
        | succ j => exact hall j (Nat.lt_of_succ_lt_succ hj)
      · refine Or.inr ⟨i + 1, by simpa using hi, heq, hb, ?_, ?_⟩
        · intro j hj
          cases j with
          | zero => exact lt_of_le_of_lt (not_lt.mp hx) hb
          | succ j => exact hprev j (Nat.lt_of_succ_lt_succ hj)
        · intro j hj
          cases j with
          | zero => exact le_trans (not_lt.mp hx) (le_of_lt hb)
          | succ j => exact hall j (Nat.lt_of_succ_lt_succ hj)

theorem cluster_centroid_eq_fold (sim : Str → Str → Option ℚ) (cluster : List Str)
    (sep : Str) (stemmer : Str → Str) :
    cluster_centroid sim cluster sep stemmer =
      (cluster.foldl
        (fun st t => if st.2 < avgSim sim sep stemmer cluster t
          then (some t, avgSim sim sep stemmer cluster t) else st)
        ((none : Option Str), (-1 : ℚ))).1 := rfl

/-- Claim C6: `cluster_centroid` (with the word-overlap similarity) returns
`none` for an empty cluster, returns the single element of a size-1
cluster, and in general returns the member whose average similarity to all
members (self included, divided by the cluster size) is greatest, with ties
resolved to the first-seen maximum in left-to-right scan order: every
member is at most the chosen average, and every member strictly before the
chosen one is strictly below it (so a later equal average does not replace
the current centroid). -/
theorem claim_C6 (sep : Str) (stemmer : Str → Str) :
    (cluster_centroid simple_word_overlap_similarity [] sep stemmer = none) ∧
    (∀ m : Str, cluster_centroid simple_word_overlap_similarity [m] sep stemmer = some m) ∧
    (∀ cluster : List Str, cluster ≠ [] →
      ∃ (i : ℕ) (hi : i < cluster.length),
        cluster_centroid simple_word_overlap_similarity cluster sep stemmer =
          some (cluster.get ⟨i, hi⟩) ∧
        (∀ (j : ℕ) (hj : j < cluster.length),
          avgSim simple_word_overlap_similarity sep stemmer cluster (cluster.get ⟨j, hj⟩) ≤
            avgSim simple_word_overlap_similarity sep stemmer cluster (cluster.get ⟨i, hi⟩)) ∧
        (∀ (j : ℕ) (hj : j < i),
          avgSim simple_word_overlap_similarity sep stemmer cluster
              (cluster.get ⟨j, Nat.lt_trans hj hi⟩) <
            avgSim simple_word_overlap_similarity sep stemmer cluster (cluster.get ⟨i, hi⟩))) := by
  have hgen : ∀ cluster : List Str, cluster ≠ [] →
      ∃ (i : ℕ) (hi : i < cluster.length),
        cluster_centroid simple_word_overlap_similarity cluster sep stemmer =
          some (cluster.get ⟨i, hi⟩) ∧
        (∀ (j : ℕ) (hj : j < cluster.length),
          avgSim simple_word_overlap_similarity sep stemmer cluster (cluster.get ⟨j, hj⟩) ≤
            avgSim simple_word_overlap_similarity sep stemmer cluster (cluster.get ⟨i, hi⟩)) ∧
        (∀ (j : ℕ) (hj : j < i),
          avgSim simple_word_overlap_similarity sep stemmer cluster
              (cluster.get ⟨j, Nat.lt_trans hj hi⟩) <
            avgSim simple_word_overlap_similarity sep stemmer cluster (cluster.get ⟨i, hi⟩)) := by
    intro cluster hne
    rcases centroid_fold_spec
        (avgSim simple_word_overlap_similarity sep stemmer cluster) cluster none (-1) with
      ⟨heq, hall⟩ | ⟨i, hi, heq, hb, hprev, hall⟩
    · exfalso
      have h0 : 0 < cluster.length := List.length_pos.mpr hne
      have h1 := hall 0 h0
      have h2 := avgSim_nonneg swos_nonneg sep stemmer cluster (cluster.get ⟨0, h0⟩)
      linarith
    · exact ⟨i, hi, by rw [cluster_centroid_eq_fold, heq], hall, hprev⟩
  refine ⟨rfl, ?_, hgen⟩
  intro m
  obtain ⟨i, hi, heq, _, _⟩ := hgen [m] (by simp)
  have hi0 : i = 0 := Nat.lt_one_iff.mp (by simpa using hi)
  subst hi0
  exact heq

theorem claim_C6_witness :
    ∃ (i : ℕ) (hi : i < ([("a/fk".data), ("b/fk".data)] : List Str).length),
      cluster_centroid simple_word_overlap_similarity
          [("a/fk".data), ("b/fk".data)] ("/".data) id =
        some (([("a/fk".data), ("b/fk".data)] : List Str).get ⟨i, hi⟩) ∧
      (∀ (j : ℕ) (hj : j < ([("a/fk".data), ("b/fk".data)] : List Str).length),
        avgSim simple_word_overlap_similarity ("/".data) id
            [("a/fk".data), ("b/fk".data)]
            (([("a/fk".data), ("b/fk".data)] : List Str).get ⟨j, hj⟩) ≤
          avgSim simple_word_overlap_similarity ("/".data) id
            [("a/fk".data), ("b/fk".data)]
            (([("a/fk".data), ("b/fk".data)] : List Str).get ⟨i, hi⟩)) ∧
      (∀ (j : ℕ) (hj : j < i),
        avgSim simple_word_overlap_similarity ("/".data) id
            [("a/fk".data), ("b/fk".data)]
            (([("a/fk".data), ("b/fk".data)] : List Str).get ⟨j, Nat.lt_trans hj hi⟩) <
          avgSim simple_word_overlap_similarity ("/".data) id
            [("a/fk".data), ("b/fk".data)]
            (([("a/fk".data), ("b/fk".data)] : List Str).get ⟨i, hi⟩)) :=
  (claim_C6 ("/".data) id).2.2 [("a/fk".data), ("b/fk".data)] (by decide)

/-! ### Lemmas about the position/frequency analyzer -/

theorem analyzeTerm_acc (st : AnalyzerState) (u t : Str) :
    (analyzeTerm st u t).sentence_length_accumulator = st.sentence_length_accumulator := by
  rcases hsf : strFind u t with _ | pos <;> simp [analyzeTerm, hsf]

theorem analyzeTerm_fp_self (st : AnalyzerState) (u term : Str) :
    (analyzeTerm st u term).first_positions term =
      match st.first_positions term, strFind u term with
      | some v, _ => some v
      | none, some pos => some (st.sentence_length_accumulator + (pos + 1))
      | none, none => none := by
  rcases hsf : strFind u term with _ | pos <;>
    rcases hfp : st.first_positions term with _ | v <;>
    simp [analyzeTerm, hsf, hfp, updateMap]

theorem analyzeTerm_fr_self (st : AnalyzerState) (u term : Str) :
    (analyzeTerm st u term).frequency term =
      match strFind u term with
      | none => st.frequency term
      | some _ => some (ratSucc ((st.frequency term).getD 0)) := by
  rcases hsf : strFind u term with _ | pos <;>
    rcases hfr : st.frequency term with _ | f <;>
    simp [analyzeTerm, hsf, hfr, updateMap]

theorem analyzeTerm_fp_ne {tother term : Str} (h : tother ≠ term)
    (st : AnalyzerState) (u : Str) :
    (analyzeTerm st u tother).first_positions term = st.first_positions term := by
  have h2 : term ≠ tother := Ne.symm h
  rcases hsf : strFind u tother with _ | pos <;>
    rcases hfp : st.first_positions tother with _ | v <;>
    simp [analyzeTerm, hsf, hfp, updateMap, h2]

theorem analyzeTerm_fr_ne {tother term : Str} (h : tother ≠ term)
    (st : AnalyzerState) (u : Str) :
    (analyzeTerm st u tother).frequency term = st.frequency term := by
  have h2 : term ≠ tother := Ne.symm h
  rcases hsf : strFind u tother with _ | pos <;>
    rcases hfr : st.frequency tother with _ | f <;>
    simp [analyzeTerm, hsf, hfr, updateMap, h2]

theorem termsLoop_acc (u : Str) :
    ∀ (cl : List Str) (st : AnalyzerState),
      (cl.foldl (fun s t => analyzeTerm s u t) st).sentence_length_accumulator =
        st.sentence_length_accumulator := by
  intro cl
  induction cl with
  | nil => intro st; rfl
  | cons t rest ih =>
    intro st
    rw [List.foldl_cons, ih, analyzeTerm_acc]

theorem termsLoop_not_mem_fp (u term : Str) :
    ∀ (cl : List Str) (st : AnalyzerState), term ∉ cl →
      (cl.foldl (fun s t => analyzeTerm s u t) st).first_positions term =
        st.first_positions term := by
  intro cl
  induction cl with
  | nil => intro st _; rfl
  | cons t rest ih =>
    intro st hmem
    rw [List.foldl_cons, ih _ (fun h => hmem (by simp [h])),
      analyzeTerm_fp_ne (fun h => hmem (by simp [h]))]

theorem termsLoop_not_mem_fr (u term : Str) :
    ∀ (cl : List Str) (st : AnalyzerState), term ∉ cl →
      (cl.foldl (fun s t => analyzeTerm s u t) st).frequency term =
        st.frequency term := by
  intro cl
  induction cl with
  | nil => intro st _; rfl
  | cons t rest ih =>
    intro st hmem
    rw [List.foldl_cons, ih _ (fun h => hmem (by simp [h])),
      analyzeTerm_fr_ne (fun h => hmem (by simp [h]))]

theorem termsLoop_fp (u term : Str) :
    ∀ (cl : List Str) (st : AnalyzerState), term ∈ cl →
      (cl.foldl (fun s t => analyzeTerm s u t) st).first_positions term =
        match st.first_positions term, strFind u term with
        | some v, _ => some v
        | none, some pos => some (st.sentence_length_accumulator + (pos + 1))
        | none, none => none := by
  intro cl
  induction cl with
  | nil => intro st h; exact absurd h (by simp)
  | cons t rest ih =>
    intro st hmem
    rw [List.foldl_cons]
    by_cases ht : t = term
    · subst ht
      by_cases hrest : t ∈ rest
      · rw [ih _ hrest, analyzeTerm_acc, analyzeTerm_fp_self]
        rcases hfp : st.first_positions t with _ | v <;>
          rcases hsf : strFind u t with _ | pos <;> simp
      · rw [termsLoop_not_mem_fp u t rest _ hrest]
        exact analyzeTerm_fp_self st u t
    · have h2 : term ∈ rest := by
        rcases List.mem_cons.mp hmem with h | h
        · exact absurd h.symm ht
        · exact h
      rw [ih _ h2, analyzeTerm_acc, analyzeTerm_fp_ne ht]

theorem termsLoop_fr (u term : Str) :
    ∀ (cl : List Str) (st : AnalyzerState), cl.Nodup → term ∈ cl →
      (cl.foldl (fun s t => analyzeTerm s u t) st).frequency term =
        match strFind u term with
        | none => st.frequency term
        | some _ => some (ratSucc ((st.frequency term).getD 0)) := by
  intro cl
  induction cl with
  | nil => intro st _ h; exact absurd h (by simp)
  | cons t rest ih =>
    intro st hnd hmem
    obtain ⟨hnotin, hndrest⟩ := List.nodup_cons.mp hnd
    rw [List.foldl_cons]
    by_cases ht : t = term
    · subst ht
      rw [termsLoop_not_mem_fr u t rest _ hnotin]
      exact analyzeTerm_fr_self st u t
    · have h2 : term ∈ rest := by
        rcases List.mem_cons.mp hmem with h | h
        · exact absurd h.symm ht
        · exact h
      rw [ih _ hndrest h2, analyzeTerm_fr_ne ht]

theorem analyzeSentence_acc (sep : Str) (cluster : List Str) (st : AnalyzerState)
    (s : Str) :
    (analyzeSentence sep cluster st s).sentence_length_accumulator =
      st.sentence_length_accumulator + (untagText sep s).length := by
  unfold analyzeSentence
  simp [termsLoop_acc]

theorem analyzeSentence_fp (sep : Str) (cluster : List Str) (st : AnalyzerState)
    (s : Str) :
    (analyzeSentence sep cluster st s).first_positions =
      (cluster.foldl (fun a t => analyzeTerm a (untagText sep s) t) st).first_positions := rfl

theorem analyzeSentence_fr (sep : Str) (cluster : List Str) (st : AnalyzerState)
    (s : Str) :
    (analyzeSentence sep cluster st s).frequency =
      (cluster.foldl (fun a t => analyzeTerm a (untagText sep s) t) st).frequency := rfl

theorem sentsLoop_acc (sep : Str) (cluster : List Str) :
    ∀ (text : List Str) (st : AnalyzerState),
      (text.foldl (analyzeSentence sep cluster) st).sentence_length_accumulator =
        st.sentence_length_accumulator +
          (text.map (fun s => (untagText sep s).length)).sum := by
  intro text
  induction text with
  | nil => intro st; simp
  | cons s rest ih =>
    intro st
    rw [List.foldl_cons, ih, analyzeSentence_acc]
    simp [Nat.add_assoc]

theorem sentsLoop_fp (sep : Str) (cluster : List Str) (term : Str)
    (hmem : term ∈ cluster) :
    ∀ (text : List Str) (st : AnalyzerState),
      (text.foldl (analyzeSentence sep cluster) st).first_positions term =
        match st.first_positions term with
        | some v => some v
        | none =>
          firstOffset term st.sentence_length_accumulator (text.map (untagText sep)) := by
  intro text
  induction text with
  | nil =>
    intro st
    rcases hfp : st.first_positions term with _ | v <;> simp [firstOffset, hfp]
  | cons s rest ih =>
    intro st
    rw [List.foldl_cons, ih, analyzeSentence_fp,
      termsLoop_fp (untagText sep s) term cluster st hmem, analyzeSentence_acc]
    rcases hfp : st.first_positions term with _ | v <;>
      rcases hsf : strFind (untagText sep s) term with _ | pos <;>
      simp [firstOffset, hsf]

theorem sentsLoop_fr (sep : Str) (cluster : List Str) (term : Str)
    (hnd : cluster.Nodup) (hmem : term ∈ cluster) :
    ∀ (text : List Str) (st : AnalyzerState),
      (text.foldl (analyzeSentence sep cluster) st).frequency term =
        (if ((text.map (untagText sep)).filter
              (fun u => (strFind u term).isSome)).length = 0
          then st.frequency term
          else some ((st.frequency term).getD 0 +
            (((text.map (untagText sep)).filter
              (fun u => (strFind u term).isSome)).length : ℚ))) := by
  intro text
  induction text with
  | nil => intro st; simp
  | cons s rest ih =>
    intro st
    rw [List.foldl_cons, ih, analyzeSentence_fr,
      termsLoop_fr (untagText sep s) term cluster st hnd hmem]
    rcases hsf : strFind (untagText sep s) term with _ | pos
    · simp [hsf]
    · by_cases hc : ((rest.map (untagText sep)).filter
          (fun u => (strFind u term).isSome)).length = 0
      · simp [hsf, hc, ratSucc_eq]
      · simp only [hsf, List.map_cons, List.filter_cons, Option.isSome_some,
          if_true, List.length_cons, hc, if_false, Option.getD_some]
        rw [if_neg (Nat.succ_ne_zero _), ratSucc_eq]
        congr 1
        push_cast
        ring

/-- Claim C5: for a cluster without duplicates and any member `term`, the
position/frequency scan records (i) as accumulator, the total untagged
length of all sentences, added after every sentence regardless of matches;
(ii) as first position, `accumulated_length_before_the_sentence +
(match_index + 1)` for the first sentence containing `term` (later
sentences never overwrite it, and a never-found phrase has no entry);
(iii) as frequency, exactly one `1.0` per sentence containing `term`,
with no entry when `term` is found in no sentence. -/
theorem claim_C5 (sep : Str) (text cluster : List Str) (term : Str)
    (hnd : cluster.Nodup) (hmem : term ∈ cluster) :
    (analyze sep text cluster).sentence_length_accumulator =
      (text.map (fun s => (untagText sep s).length)).sum ∧
    (analyze sep text cluster).first_positions term =
      firstOffset term 0 (text.map (untagText sep)) ∧
    (analyze sep text cluster).frequency term =
      (if ((text.map (untagText sep)).filter
            (fun u => (strFind u term).isSome)).length = 0
        then none
        else some ((((text.map (untagText sep)).filter
            (fun u => (strFind u term).isSome)).length : ℕ) : ℚ)) := by
  refine ⟨?_, ?_, ?_⟩
  · have h := sentsLoop_acc sep cluster text ⟨0, fun _ => none, fun _ => none⟩
    simpa [analyze] using h
  · have h := sentsLoop_fp sep cluster term hmem text ⟨0, fun _ => none, fun _ => none⟩
    simpa [analyze] using h
  · have h := sentsLoop_fr sep cluster term hnd hmem text ⟨0, fun _ => none, fun _ => none⟩
    simpa [analyze] using h

theorem claim_C5_witness :
    (analyze ("/".data) [("a/N".data), ("a/N b/N".data)]
        [("a".data), ("b".data)]).sentence_length_accumulator =
      (([("a/N".data), ("a/N b/N".data)] : List Str).map
        (fun s => (untagText ("/".data) s).length)).sum ∧
    (analyze ("/".data) [("a/N".data), ("a/N b/N".data)]
        [("a".data), ("b".data)]).first_positions ("b".data) =
      firstOffset ("b".data) 0
        (([("a/N".data), ("a/N b/N".data)] : List Str).map (untagText ("/".data))) ∧
    (analyze ("/".data) [("a/N".data), ("a/N b/N".data)]
        [("a".data), ("b".data)]).frequency ("b".data) =
      (if ((([("a/N".data), ("a/N b/N".data)] : List Str).map
            (untagText ("/".data))).filter
            (fun u => (strFind u ("b".data)).isSome)).length = 0
        then none
        else some ((((([("a/N".data), ("a/N b/N".data)] : List Str).map
            (untagText ("/".data))).filter
            (fun u => (strFind u ("b".data)).isSome)).length : ℕ) : ℚ)) :=
  claim_C5 ("/".data) [("a/N".data), ("a/N b/N".data)] [("a".data), ("b".data)]
    ("b".data) (by decide) (by decide)
